import Mathlib

/-!
Verification of the ESP32 audio pipeline in `src/esp32/audio_processor.cpp`
(classes `AudioProcessor` and `SecureConnectionManager`).

Shallow embedding notes:
 -- The silence-run-length codec (`compressAudio` / `isSilence` / `countSilence`)
    is embedded as pure functions over lists.  The C loop walks an `int16_t`
    view of the byte input with a cursor `i` and an output cursor `out_idx`;
    here the remaining sample suffix is passed explicitly and the recursion is
    fueled by the sample count (each loop iteration consumes at least one
    sample, which is proved as claim C9, so this fuel is sufficient).
 -- The output buffer is modelled as the list of `(index, byte)` stores the
    loop performs, together with the final `out_idx` and the number of silence
    regions compressed (the `stats.silence_regions_compressed` increments).
 -- `float` statistics fields are modelled over `Rat` (exact arithmetic).
    Note Lean division by zero yields `0` where C float division by zero
    yields `inf`; claims touching that path are settled on integer fields.
 -- Machine integers: sizes and indices are `Nat` (the C `size_t` values never
    get near 2^32 here); samples are `Int` restricted through the `int16_t`
    reinterpretation `int16OfBytes` / `byteLo` / `byteHi`.
-/

/-- COMPRESSION_BUFFER_SIZE from audio_processor.h (8 KB compression buffer). -/
def COMPRESSION_BUFFER_SIZE : Nat := 8192

/-- SILENCE_THRESHOLD from audio_processor.h. -/
def SILENCE_THRESHOLD : Nat := 100

/-- SILENCE_MARKER from audio_processor.h (0xFF). -/
def SILENCE_MARKER : Nat := 0xFF

/-- MIN_SILENCE_SAMPLES from audio_processor.h. -/
def MIN_SILENCE_SAMPLES : Nat := 8

/-- MAX_SILENCE_RUN from audio_processor.h. -/
def MAX_SILENCE_RUN : Nat := 2048

/-- One sample is "silent" when `abs(sample) <= SILENCE_THRESHOLD`; this is the
comparison used in both `isSilence` (line 162, negated) and `countSilence`
(line 179) of audio_processor.cpp. -/
def silentSample (s : Int) : Bool := s.natAbs ≤ SILENCE_THRESHOLD

/-- AudioProcessor::isSilence (audio_processor.cpp lines 153-168): given the
remaining sample suffix, return false when fewer than MIN_SILENCE_SAMPLES
samples remain, otherwise check that the first
`check_count = min(MIN_SILENCE_SAMPLES, available_count)` samples are all
silent.  `(samples.take MIN_SILENCE_SAMPLES).length < MIN_SILENCE_SAMPLES`
is exactly `available_count < MIN_SILENCE_SAMPLES`, and under the guard
`check_count = MIN_SILENCE_SAMPLES`, so the probed window is
`samples.take MIN_SILENCE_SAMPLES`. -/
def isSilence (samples : List Int) : Bool :=
  if (samples.take MIN_SILENCE_SAMPLES).length < MIN_SILENCE_SAMPLES then false
  else (samples.take MIN_SILENCE_SAMPLES).all silentSample

/-- AudioProcessor::countSilence (audio_processor.cpp lines 170-187): scan
forward from the current position while samples are silent, stopping at the
first loud sample or after `max_silence = min(MAX_SILENCE_RUN,
available_count)` samples.  `List.take MAX_SILENCE_RUN` realises the
`min` bound (taking past the end of the list stops at the end), and
`takeWhile` realises the break at the first loud sample.  The C function
returns 0 for an empty suffix, which `takeWhile` on `[]` also gives. -/
def countSilence (samples : List Int) : Nat :=
  ((samples.take MAX_SILENCE_RUN).takeWhile silentSample).length

/-- Low byte of the little-endian int16 representation of a sample, i.e. the
byte the raw branch copies from `input[i * 2]` (line 141). -/
def byteLo (s : Int) : Nat := (s % 65536).toNat % 256

/-- High byte of the little-endian int16 representation of a sample, i.e. the
byte the raw branch copies from `input[i * 2 + 1]` (line 142). -/
def byteHi (s : Int) : Nat := (s % 65536).toNat / 256 % 256

/-- Result of one `compressAudio` call: the `(out_idx, byte)` stores made into
the output buffer, the returned `out_idx`, and the number of
`stats.silence_regions_compressed++` increments performed. -/
structure CompressResult where
  writes : List (Nat × Nat)
  len : Nat
  silenceBlocks : Nat
deriving DecidableEq

/-- The `while (i < sample_count)` loop of AudioProcessor::compressAudio
(audio_processor.cpp lines 119-145), over the remaining sample suffix.
Loop body, in source order: first the capacity guard
`out_idx >= COMPRESSION_BUFFER_SIZE - 4` breaks out of the loop; then a
silence region emits `[SILENCE_MARKER, count & 0xFF, (count >> 8) & 0xFF]`
and advances the cursor by the counted run; otherwise the two little-endian
bytes of the current sample are copied and the cursor advances by one.
The fuel argument only bounds the number of iterations; claim C9 proves any
fuel at least the remaining sample count gives the loop's exact result. -/
def compressGo : Nat → List Int → Nat → CompressResult
  | 0, _, out_idx => ⟨[], out_idx, 0⟩
  | _ + 1, [], out_idx => ⟨[], out_idx, 0⟩
  | fuel + 1, s :: rest, out_idx =>
    if COMPRESSION_BUFFER_SIZE - 4 ≤ out_idx then ⟨[], out_idx, 0⟩
    else if isSilence (s :: rest) then
      let sc := countSilence (s :: rest)
      let r := compressGo fuel ((s :: rest).drop sc) (out_idx + 3)
      ⟨(out_idx, SILENCE_MARKER) :: (out_idx + 1, sc % 256) ::
        (out_idx + 2, sc / 256 % 256) :: r.writes, r.len, r.silenceBlocks + 1⟩
    else
      let r := compressGo fuel rest (out_idx + 2)
      ⟨(out_idx, byteLo s) :: (out_idx + 1, byteHi s) :: r.writes, r.len,
        r.silenceBlocks⟩

/-- The compression loop started on a full sample buffer (cursor `i = 0`,
`out_idx = 0`), with fuel equal to the sample count. -/
def compressSamples (samples : List Int) : CompressResult :=
  compressGo samples.length samples 0

/-- Reinterpretation of two consecutive bytes as a little-endian signed
`int16_t`, as done by the cast `int16_t* samples = (int16_t*)input`
(audio_processor.cpp line 114) on the little-endian ESP32. -/
def int16OfBytes (b0 b1 : Nat) : Int :=
  let v := b0 % 256 + 256 * (b1 % 256)
  if v < 32768 then (v : Int) else (v : Int) - 65536

/-- The `int16_t` view of the byte input: `sample_count = input_size / 2`
pairs of bytes, a trailing odd byte being ignored (line 115). -/
def toSamples : List Nat → List Int
  | b0 :: b1 :: rest => int16OfBytes b0 b1 :: toSamples rest
  | _ => []

/-- AudioProcessor::compressAudio (audio_processor.cpp lines 106-151) on a
byte buffer: the null-pointer/empty guard returns 0 (modelled for the
`input_size == 0` case; null pointers have no counterpart here), otherwise
the loop runs over the `int16_t` view of the input. -/
def compressAudio (input : List Nat) : CompressResult :=
  if input.length = 0 then ⟨[], 0, 0⟩
  else compressSamples (toSamples input)

/-- The little-endian byte image of a sample buffer; this is the byte array
`(uint8_t*)samples` that `encodeAudioBase64` (line 83) passes to
`compressAudio`. -/
def bytesOfSamples : List Int → List Nat
  | [] => []
  | s :: rest => byteLo s :: byteHi s :: bytesOfSamples rest

/-- The stores a run of `k` consecutive loud copies of sample `c` performs:
two raw little-endian bytes per sample at consecutive output indices. -/
def rawWrites (c : Int) : Nat → Nat → List (Nat × Nat)
  | 0, _ => []
  | k + 1, out_idx => (out_idx, byteLo c) :: (out_idx + 1, byteHi c) :: rawWrites c k (out_idx + 2)

/-- Concrete sample buffer for exercising the output-capacity guard: an
8-sample silence run, 4092 loud samples, then a final 8-sample silence run.
Compressing it puts the output cursor at 3 + 2 * 4092 = 8187 when the final
silence region is reached; the guard `8187 < COMPRESSION_BUFFER_SIZE - 4`
passes and the 3-byte silence code is stored at indices 8187, 8188, 8189. -/
def exSamplesC3 : List Int :=
  List.replicate 8 0 ++ (List.replicate 4092 1000 ++ List.replicate 8 0)

/-- The little-endian byte image of `exSamplesC3`, as handed to
`compressAudio` by `encodeAudioBase64`. -/
def exBytesC3 : List Nat := bytesOfSamples exSamplesC3

/-- The CompressionStats record of audio_processor.h (lines 31-40).  Counters
are `unsigned long` in the source, modelled as `Nat` (the values reached here
stay far below 2^32 so overflow semantics never bite); the two `float` ratio
fields `last_compression_ratio` and `average_compression_ratio` are modelled
exactly over `Rat` as `lastRatioQ` and `avgRatioQ`. -/
structure CompressionStats where
  total_processed : Nat
  total_compressed : Nat
  silence_regions_compressed : Nat
  chunks_sent : Nat
  chunks_failed : Nat
  encoding_time_ms : Nat
  lastRatioQ : Rat
  avgRatioQ : Rat
deriving DecidableEq

/-- The statistics state after the AudioProcessor constructor
(audio_processor.cpp lines 56-60): `memset` to zero, then
`average_compression_ratio = 1.0f`. -/
def initStats : CompressionStats := ⟨0, 0, 0, 0, 0, 0, 0, 1⟩

/-- AudioProcessor::resetStats (audio_processor.cpp lines 193-197): `memset`
to zero, then `average_compression_ratio = 1.0f`; the previous state is
discarded entirely. -/
def resetStats (_ : CompressionStats) : CompressionStats := ⟨0, 0, 0, 0, 0, 0, 0, 1⟩

/-- Length of the standard padded base64 encoding of `n` bytes, the behaviour
of the external `base64::encode` primitive (spec section 4.2); an empty
input yields an empty string. -/
def base64Length (n : Nat) : Nat := (n + 2) / 3 * 4

/-- AudioProcessor::encodeAudioBase64 (audio_processor.cpp lines 73-104).
`bufAllocated` is whether the constructor managed to allocate
`compressed_buffer` (when it is false, the `!output` guard inside
`compressAudio` makes it return 0 at once, and `base64::encode` of 0 bytes is
the empty string; note the function itself performs NO null-buffer check and
still runs its statistics update).  Null `samples` and `count == 0` both hit
the early return that leaves the statistics untouched.  `elapsed` stands for
the wall-clock `millis() - start_time`.  Returns the length of the encoded
string together with the updated statistics.  The `float` ratio updates of
lines 95-96 are modelled over `Rat`; where the source divides by a zero
`compressed_size` the C `float` result is `inf` while `Rat` division yields
0 — claims touching that path are settled on the integer counters. -/
def encodeAudioBase64 (bufAllocated : Bool) (samples : List Int)
    (st : CompressionStats) (elapsed : Nat) : Nat × CompressionStats :=
  if samples.length = 0 then (0, st)
  else
    let byte_count := samples.length * 2
    let r := if bufAllocated then compressAudio (bytesOfSamples samples) else ⟨[], 0, 0⟩
    (base64Length r.len,
      { total_processed := st.total_processed + byte_count
        total_compressed := st.total_compressed + r.len
        silence_regions_compressed := st.silence_regions_compressed + r.silenceBlocks
        chunks_sent := st.chunks_sent
        chunks_failed := st.chunks_failed
        encoding_time_ms := elapsed
        lastRatioQ := (byte_count : Rat) / (r.len : Rat)
        avgRatioQ := (st.avgRatioQ + (byte_count : Rat) / (r.len : Rat)) / 2 })

/-- The sample buffer used by AudioProcessor::selfTest (audio_processor.cpp
line 352); used here as the concrete failing input for the null-buffer
claim. -/
def exSamplesC4 : List Int :=
  [1000, -1000, 500, -500, 0, 0, 0, 0, 2000, -2000, 0, 0, 0, 0, 100, -100]

/-- Configuration calls SecureConnectionManager::setupSecureConnection can
make on the WiFiClientSecure transport. -/
inductive TLSAction where
  | setInsecure
  | setCACert
  | setTimeout (ms : Nat)
deriving DecidableEq

/-- SecureConnectionManager::setupSecureConnection (audio_processor.cpp lines
205-231).  `developmentFlag` models the DEVELOPMENT compile flag (the
`#ifdef DEVELOPMENT` of line 212), `development_mode` the run-time argument.
Returns the list of configuration calls made on the transport, in order, and
the resulting `client_configured` flag (set unconditionally at line 229).
The trust-all call `setInsecure` happens only when the caller requests
development mode AND the build defines DEVELOPMENT; a development-mode
request without the flag falls back to `setCACert(root_ca)`; production mode
installs the pinned CA and a 30000 ms timeout. -/
def setupSecureConnection (developmentFlag development_mode : Bool) :
    List TLSAction × Bool :=
  if development_mode then
    if developmentFlag then ([TLSAction.setInsecure], true)
    else ([TLSAction.setCACert], true)
  else ([TLSAction.setCACert, TLSAction.setTimeout 30000], true)

/-- Network calls SecureConnectionManager::verifyConnection can make on the
transport. -/
inductive NetAction where
  | connect (host : String) (port : Nat)
  | stop
deriving DecidableEq

/-- SecureConnectionManager::verifyConnection (audio_processor.cpp lines
233-250).  `connectOk` models the environment: whether the TLS
connect/handshake to `host:443` succeeds.  Returns the network calls made,
in order, and the boolean result: false with no network action when
`client_configured` is false; false after a failed `connect`; true after a
successful `connect` followed by `stop` (the failure path performs no
explicit `stop`). -/
def verifyConnection (client_configured : Bool) (connectOk : Bool) (host : String) :
    List NetAction × Bool :=
  if client_configured = false then ([], false)
  else if connectOk = false then ([NetAction.connect host 443], false)
  else ([NetAction.connect host 443, NetAction.stop], true)

/-- Connection state of the transport after a sequence of network calls,
given whether connect attempts succeed: a failed `connect` leaves the client
unconnected (WiFiClientSecure establishes no connection when `connect`
returns false) and `stop` closes any open connection. -/
def runNet (connectOk : Bool) : Bool → List NetAction → Bool
  | conn, [] => conn
  | _, NetAction.connect _ _ :: rest => runNet connectOk connectOk rest
  | _, NetAction.stop :: rest => runNet connectOk false rest

example : toSamples (bytesOfSamples [1000, -1000, 0, 32767, -32768]) =
    [1000, -1000, 0, 32767, -32768] := by decide

example : compressSamples [1000, -1000] =
    ⟨[(0, byteLo 1000), (1, byteHi 1000), (2, byteLo (-1000)), (3, byteHi (-1000))], 4, 0⟩ := by
  decide

example : compressSamples (List.replicate 8 0) = ⟨[(0, 255), (1, 8), (2, 0)], 3, 1⟩ := by
  decide

/-! Helper lemmas about the codec. -/

/-- The loop body never runs past the end of the input: with no samples left,
any fuel returns the current output cursor and performs no store. -/
theorem compressGo_nil (fuel out_idx : Nat) : compressGo fuel [] out_idx = ⟨[], out_idx, 0⟩ := by
  cases fuel <;> rfl

/-- A position whose first sample is loud is never classified as silence. -/
theorem isSilence_cons_loud (s : Int) (rest : List Int) (h : silentSample s = false) :
    isSilence (s :: rest) = false := by
  unfold isSilence
  split
  · rfl
  · have : MIN_SILENCE_SAMPLES = 7 + 1 := rfl
    rw [this, List.take_succ_cons, List.all_cons, h]
    rfl

/-- If the first `n` elements of `l` all satisfy `p` (and `l` has at least
`n` elements), the `takeWhile p` prefix has length at least `n`. -/
theorem takeWhile_length_ge (p : α → Bool) :
    ∀ (l : List α) (n : Nat), n ≤ l.length → (l.take n).all p = true →
      n ≤ (l.takeWhile p).length := by
  intro l
  induction l with
  | nil => intro n hn _; simpa using hn
  | cons a t ih =>
    intro n hn hall
    cases n with
    | zero => exact Nat.zero_le _
    | succ m =>
      rw [List.take_succ_cons, List.all_cons, Bool.and_eq_true] at hall
      rw [List.takeWhile_cons, hall.1]
      simpa using ih m (by simpa using hn) hall.2

/-- A silence-classified position always yields a counted run of at least
MIN_SILENCE_SAMPLES (the probe requires the first MIN_SILENCE_SAMPLES
samples to be silent, and `countSilence` scans at least that far). -/
theorem countSilence_ge_min (samples : List Int) (h : isSilence samples = true) :
    MIN_SILENCE_SAMPLES ≤ countSilence samples := by
  unfold isSilence at h
  split at h
  · exact absurd h (by simp)
  · rename_i hlen
    have hlen8 : MIN_SILENCE_SAMPLES ≤ samples.length := by
      rw [List.length_take] at hlen
      omega
    unfold countSilence
    apply takeWhile_length_ge
    · rw [List.length_take]
      have : MIN_SILENCE_SAMPLES ≤ MAX_SILENCE_RUN := by decide
      omega
    · rw [List.take_take]
      have : min MIN_SILENCE_SAMPLES MAX_SILENCE_RUN = MIN_SILENCE_SAMPLES := by decide
      rw [this]
      exact h

/-- Counted silence runs never exceed the remaining sample count. -/
theorem countSilence_le_length (samples : List Int) :
    countSilence samples ≤ samples.length := by
  unfold countSilence
  calc ((samples.take MAX_SILENCE_RUN).takeWhile silentSample).length
      ≤ (samples.take MAX_SILENCE_RUN).length := (List.takeWhile_prefix _).length_le
    _ ≤ samples.length := by rw [List.length_take]; omega

/-- Any fuel of at least the remaining sample count computes the loop's
result: the fuel bound is never the reason the recursion stops.  This is the
shallow-embedding form of termination of the `while (i < sample_count)`
loop. -/
theorem compressGo_fuel_stable :
    ∀ (fuel k : Nat) (rest : List Int) (out_idx : Nat), rest.length ≤ fuel →
      compressGo (fuel + k) rest out_idx = compressGo fuel rest out_idx := by
  intro fuel
  induction fuel with
  | zero =>
    intro k rest out h
    have : rest = [] := List.eq_nil_of_length_eq_zero (Nat.le_zero.mp h)
    subst this
    rw [compressGo_nil, compressGo_nil]
  | succ f ih =>
    intro k rest out h
    cases rest with
    | nil => rw [compressGo_nil, compressGo_nil]
    | cons s t =>
      rw [Nat.succ_add]
      by_cases hg : COMPRESSION_BUFFER_SIZE - 4 ≤ out
      · simp only [compressGo, if_pos hg]
      · by_cases hs : isSilence (s :: t) = true
        · have hsc : MIN_SILENCE_SAMPLES ≤ countSilence (s :: t) := countSilence_ge_min _ hs
          have hsc1 : 1 ≤ countSilence (s :: t) :=
            Nat.le_trans (show 1 ≤ MIN_SILENCE_SAMPLES by decide) hsc
          have hrec : ((s :: t).drop (countSilence (s :: t))).length ≤ f := by
            rw [List.length_drop]
            simp only [List.length_cons] at h ⊢
            omega
          simp only [compressGo, if_neg hg, if_pos hs, ih k _ _ hrec]
        · have hrec : t.length ≤ f := by
            simp only [List.length_cons] at h
            omega
          simp only [compressGo, if_neg hg, if_neg hs, ih k _ _ hrec]

/-- The returned output cursor never decreases. -/
theorem compressGo_len_ge :
    ∀ (fuel : Nat) (rest : List Int) (out_idx : Nat),
      out_idx ≤ (compressGo fuel rest out_idx).len := by
  intro fuel
  induction fuel with
  | zero => intro rest out; exact Nat.le_refl _
  | succ f ih =>
    intro rest out
    cases rest with
    | nil => rw [compressGo_nil]
    | cons s t =>
      by_cases hg : COMPRESSION_BUFFER_SIZE - 4 ≤ out
      · simp only [compressGo, if_pos hg]
        exact Nat.le_refl _
      · by_cases hs : isSilence (s :: t) = true
        · simp only [compressGo, if_neg hg, if_pos hs]
          exact Nat.le_trans (by omega) (ih _ (out + 3))
        · simp only [compressGo, if_neg hg, if_neg hs]
          exact Nat.le_trans (by omega) (ih _ (out + 2))

/-- Every store of one compress call lands at an index at most
COMPRESSION_BUFFER_SIZE - 3: the loop body only runs when
`out_idx < COMPRESSION_BUFFER_SIZE - 4`, and a silence region stores 3
bytes starting there. -/
theorem compressGo_writes_bound :
    ∀ (fuel : Nat) (rest : List Int) (out_idx : Nat) (w : Nat × Nat),
      w ∈ (compressGo fuel rest out_idx).writes →
        w.1 ≤ COMPRESSION_BUFFER_SIZE - 3 := by
  intro fuel
  induction fuel with
  | zero => intro rest out w hw; simp [compressGo] at hw
  | succ f ih =>
    intro rest out w hw
    cases rest with
    | nil => rw [compressGo_nil] at hw; simp at hw
    | cons s t =>
      by_cases hg : COMPRESSION_BUFFER_SIZE - 4 ≤ out
      · simp only [compressGo, if_pos hg] at hw
        simp at hw
      · have hout : out + 2 ≤ COMPRESSION_BUFFER_SIZE - 3 := by
          unfold COMPRESSION_BUFFER_SIZE at hg ⊢
          omega
        by_cases hs : isSilence (s :: t) = true
        · simp only [compressGo, if_neg hg, if_pos hs, List.mem_cons] at hw
          rcases hw with h | h | h | h
          · subst h; omega
          · subst h; omega
          · subst h; omega
          · exact ih _ _ _ h
        · simp only [compressGo, if_neg hg, if_neg hs, List.mem_cons] at hw
          rcases hw with h | h | h
          · subst h; omega
          · subst h; omega
          · exact ih _ _ _ h

/-- If the loop starts with its output cursor at most
COMPRESSION_BUFFER_SIZE - 2, it returns a cursor at most
COMPRESSION_BUFFER_SIZE - 2 (the worst case is entering the body at
cursor COMPRESSION_BUFFER_SIZE - 5 and emitting a 3-byte silence code). -/
theorem compressGo_len_le :
    ∀ (fuel : Nat) (rest : List Int) (out_idx : Nat),
      out_idx ≤ COMPRESSION_BUFFER_SIZE - 2 →
        (compressGo fuel rest out_idx).len ≤ COMPRESSION_BUFFER_SIZE - 2 := by
  intro fuel
  induction fuel with
  | zero => intro rest out h; exact h
  | succ f ih =>
    intro rest out h
    cases rest with
    | nil => rw [compressGo_nil]; exact h
    | cons s t =>
      by_cases hg : COMPRESSION_BUFFER_SIZE - 4 ≤ out
      · simp only [compressGo, if_pos hg]; exact h
      · by_cases hs : isSilence (s :: t) = true
        · simp only [compressGo, if_neg hg, if_pos hs]
          exact ih _ (out + 3) (by unfold COMPRESSION_BUFFER_SIZE at hg ⊢; omega)
        · simp only [compressGo, if_neg hg, if_neg hs]
          exact ih _ (out + 2) (by unfold COMPRESSION_BUFFER_SIZE at hg ⊢; omega)

/-- On an input in which no position is classified as silence, every
iteration takes the raw branch and the output cursor advances by exactly 2
per sample, provided the capacity guard never trips. -/
theorem compressGo_no_silence :
    ∀ (fuel : Nat) (rest : List Int) (out_idx : Nat), rest.length ≤ fuel →
      (∀ i, isSilence (rest.drop i) = false) →
      out_idx + 2 * rest.length ≤ COMPRESSION_BUFFER_SIZE - 4 →
      (compressGo fuel rest out_idx).len = out_idx + 2 * rest.length := by
  intro fuel
  induction fuel with
  | zero =>
    intro rest out h _ _
    have : rest = [] := List.eq_nil_of_length_eq_zero (Nat.le_zero.mp h)
    subst this
    simp [compressGo]
  | succ f ih =>
    intro rest out h hsil hcap
    cases rest with
    | nil => rw [compressGo_nil]; simp
    | cons s t =>
      have hg : ¬ COMPRESSION_BUFFER_SIZE - 4 ≤ out := by
        simp only [List.length_cons] at hcap
        omega
      have hs : isSilence (s :: t) = false := by
        have := hsil 0
        rwa [List.drop_zero] at this
      simp only [compressGo, if_neg hg, if_neg (by rw [hs]; simp : ¬ isSilence (s :: t) = true)]
      have hrec := ih t (out + 2) (by simp only [List.length_cons] at h; omega)
        (fun i => by have := hsil (i + 1); rwa [List.drop_succ_cons] at this)
        (by simp only [List.length_cons] at hcap; omega)
      rw [hrec]
      simp only [List.length_cons]
      ring

/-- A buffer of silent samples no longer than MAX_SILENCE_RUN is counted in
full by `countSilence`. -/
theorem countSilence_all_silent (samples : List Int)
    (hall : ∀ s ∈ samples, silentSample s = true)
    (hlen : samples.length ≤ MAX_SILENCE_RUN) :
    countSilence samples = samples.length := by
  unfold countSilence
  rw [List.take_of_length_le hlen, List.takeWhile_eq_self_iff.mpr hall]

/-- A buffer of at least MIN_SILENCE_SAMPLES silent samples is classified as
silence. -/
theorem isSilence_all_silent (samples : List Int)
    (hall : ∀ s ∈ samples, silentSample s = true)
    (hlen : MIN_SILENCE_SAMPLES ≤ samples.length) :
    isSilence samples = true := by
  unfold isSilence
  split
  · rename_i hc
    rw [List.length_take] at hc
    omega
  · exact List.all_eq_true.mpr fun s hs => hall s (List.take_subset _ _ hs)

/-- One silence-branch step of the loop, for a positive fuel: emit the
3-byte silence code and continue past the counted run with the cursor
advanced by 3. -/
theorem compressGo_silence_step (fuel : Nat) (s : Int) (t : List Int) (out_idx : Nat)
    (hfuel : 0 < fuel) (hg : ¬ COMPRESSION_BUFFER_SIZE - 4 ≤ out_idx)
    (hs : isSilence (s :: t) = true) :
    compressGo fuel (s :: t) out_idx =
      ⟨(out_idx, SILENCE_MARKER) :: (out_idx + 1, countSilence (s :: t) % 256) ::
        (out_idx + 2, countSilence (s :: t) / 256 % 256) ::
        (compressGo (fuel - 1) ((s :: t).drop (countSilence (s :: t))) (out_idx + 3)).writes,
       (compressGo (fuel - 1) ((s :: t).drop (countSilence (s :: t))) (out_idx + 3)).len,
       (compressGo (fuel - 1) ((s :: t).drop (countSilence (s :: t))) (out_idx + 3)).silenceBlocks
         + 1⟩ := by
  cases fuel with
  | zero => omega
  | succ f => simp only [compressGo, if_neg hg, if_pos hs, Nat.add_sub_cancel]

/-- A run of `k` loud samples in front of `tail` is copied raw, two bytes per
sample, provided the capacity guard is never reached inside the run; the
loop then continues on `tail` with the leftover fuel and the cursor advanced
by 2 per sample. -/
theorem compressGo_replicate_loud (c : Int) (hc : silentSample c = false) :
    ∀ (k fuel : Nat) (tail : List Int) (out_idx : Nat), k ≤ fuel →
      out_idx + 2 * k ≤ COMPRESSION_BUFFER_SIZE - 4 →
      compressGo fuel (List.replicate k c ++ tail) out_idx =
        ⟨rawWrites c k out_idx ++ (compressGo (fuel - k) tail (out_idx + 2 * k)).writes,
         (compressGo (fuel - k) tail (out_idx + 2 * k)).len,
         (compressGo (fuel - k) tail (out_idx + 2 * k)).silenceBlocks⟩ := by
  intro k
  induction k with
  | zero =>
    intro fuel tail out _ _
    simp [rawWrites]
  | succ k ih =>
    intro fuel tail out hk hcap
    cases fuel with
    | zero => omega
    | succ f =>
      have hg : ¬ COMPRESSION_BUFFER_SIZE - 4 ≤ out := by omega
      have hs : isSilence (c :: (List.replicate k c ++ tail)) = false :=
        isSilence_cons_loud c _ hc
      rw [List.replicate_succ, List.cons_append]
      simp only [compressGo, if_neg hg, if_neg (by rw [hs]; simp : ¬ isSilence
        (c :: (List.replicate k c ++ tail)) = true)]
      rw [ih f tail (out + 2) (by omega) (by omega)]
      simp only [rawWrites, List.cons_append, Nat.succ_sub_succ]
      have : out + 2 + 2 * k = out + 2 * (k + 1) := by ring
      rw [this]

/-- The byte image of a sample buffer has two bytes per sample. -/
theorem length_bytesOfSamples : ∀ (samples : List Int),
    (bytesOfSamples samples).length = 2 * samples.length := by
  intro samples
  induction samples with
  | nil => rfl
  | cons s t ih => simp only [bytesOfSamples, List.length_cons, ih]; ring

/-- Reinterpreting the two little-endian bytes of an in-range `int16_t`
recovers the sample. -/
theorem int16OfBytes_roundtrip (s : Int) (h1 : -32768 ≤ s) (h2 : s ≤ 32767) :
    int16OfBytes (byteLo s) (byteHi s) = s := by
  unfold int16OfBytes byteLo byteHi
  simp only []
  split <;> rename_i h <;> omega

/-- The `int16_t` view of the byte image of an in-range sample buffer is the
buffer itself. -/
theorem toSamples_bytesOfSamples :
    ∀ (samples : List Int), (∀ s ∈ samples, -32768 ≤ s ∧ s ≤ 32767) →
      toSamples (bytesOfSamples samples) = samples := by
  intro samples
  induction samples with
  | nil => intro _; rfl
  | cons s t ih =>
    intro h
    simp only [bytesOfSamples, toSamples]
    rw [int16OfBytes_roundtrip s (h s (by simp)).1 (h s (by simp)).2,
      ih fun x hx => h x (by simp [hx])]

/-- Claim C3, counterexample.  Compressing the byte image of `exSamplesC3`
(8 silent samples, 4092 loud samples, 8 silent samples) stores the byte 8 at
output index 8188 = COMPRESSION_BUFFER_SIZE - 4: the guard admits the loop
body at cursor 8187 and the silence branch then writes 3 bytes, reaching
indices 8188 and 8189 inside the last 4 bytes of the buffer.  This refutes
the claim that no byte is ever written at an index at or beyond
`capacity - 4`. -/
theorem C3_counterexample :
    (8188, 8) ∈ (compressAudio exBytesC3).writes ∧
      COMPRESSION_BUFFER_SIZE - 4 ≤ 8188 := by
  refine ⟨?_, by decide⟩
  have hrange : ∀ s ∈ exSamplesC3, -32768 ≤ s ∧ s ≤ 32767 := by
    intro s hs
    unfold exSamplesC3 at hs
    simp only [List.mem_append, List.mem_replicate] at hs
    rcases hs with ⟨_, h⟩ | ⟨_, h⟩ | ⟨_, h⟩ <;> subst h <;> exact ⟨by decide, by decide⟩
  have hts : toSamples exBytesC3 = exSamplesC3 := toSamples_bytesOfSamples _ hrange
  have hlen2 : exSamplesC3.length = 4108 := by
    simp only [exSamplesC3, List.length_append, List.length_replicate]
  have hlen : ¬ exBytesC3.length = 0 := by
    unfold exBytesC3
    rw [length_bytesOfSamples, hlen2]
    omega
  have hca : compressAudio exBytesC3 = compressSamples exSamplesC3 := by
    unfold compressAudio
    rw [if_neg hlen, hts]
  rw [hca]
  unfold compressSamples
  rw [hlen2]
  have hs0 : isSilence exSamplesC3 = true := by decide
  have hc0 : countSilence exSamplesC3 = 8 := by decide
  have hcons : exSamplesC3 =
      (0 : Int) :: (List.replicate 7 0 ++ (List.replicate 4092 1000 ++ List.replicate 8 0)) :=
    rfl
  rw [hcons] at hs0 hc0 ⊢
  rw [compressGo_silence_step 4108 _ _ 0 (by decide) (by decide) hs0, hc0]
  have hdrop :
      ((0 : Int) :: (List.replicate 7 0 ++ (List.replicate 4092 1000 ++ List.replicate 8 0))).drop 8
        = List.replicate 4092 1000 ++ List.replicate 8 0 := by
    rw [← hcons]
    unfold exSamplesC3
    exact List.drop_left' (by simp)
  rw [hdrop, show (4108 : Nat) - 1 = 4107 from rfl, show (0 : Nat) + 3 = 3 from rfl,
    compressGo_replicate_loud 1000 (by decide) 4092 4107 (List.replicate 8 0) 3
      (by decide) (by decide),
    show (4107 : Nat) - 4092 = 15 from rfl, show (3 : Nat) + 2 * 4092 = 8187 from rfl,
    show compressGo 15 (List.replicate 8 0) 8187 =
      ⟨[(8187, 255), (8188, 8), (8189, 0)], 8190, 1⟩ from by decide]
  refine List.mem_cons_of_mem _ (List.mem_cons_of_mem _ (List.mem_cons_of_mem _
    (List.mem_append_right _ ?_)))
  decide

/-- One loop step on a non-empty input from cursor 0 always stores at least
2 bytes (3 for a silence region, 2 for a raw sample). -/
theorem compressGo_len_ge_two (fuel : Nat) (s : Int) (t : List Int) :
    2 ≤ (compressGo (fuel + 1) (s :: t) 0).len := by
  by_cases hs : isSilence (s :: t) = true
  · rw [compressGo_silence_step (fuel + 1) s t 0 (by omega) (by decide) hs]
    exact Nat.le_trans (by omega)
      (compressGo_len_ge (fuel + 1 - 1) ((s :: t).drop (countSilence (s :: t))) (0 + 3))
  · simp only [compressGo, if_neg (show ¬ COMPRESSION_BUFFER_SIZE - 4 ≤ 0 by decide),
      if_neg hs]
    exact Nat.le_trans (by omega) (compressGo_len_ge fuel t (0 + 2))

/-- Claim C3, amended.  During a single compress call no byte is ever written
at an output index at or beyond COMPRESSION_BUFFER_SIZE - 2 (the guard stops
the loop before the last TWO bytes of the buffer, not the last four: a
silence code begun at cursor COMPRESSION_BUFFER_SIZE - 5 reaches index
COMPRESSION_BUFFER_SIZE - 3), and the returned compressed length never
exceeds the output capacity. -/
theorem C3_amended_buffer_bounds (input : List Nat) :
    (∀ w ∈ (compressAudio input).writes, w.1 < COMPRESSION_BUFFER_SIZE - 2) ∧
    (compressAudio input).len ≤ COMPRESSION_BUFFER_SIZE := by
  unfold compressAudio compressSamples
  split
  · exact ⟨by simp, by decide⟩
  · constructor
    · intro w hw
      have := compressGo_writes_bound (toSamples input).length (toSamples input) 0 w hw
      unfold COMPRESSION_BUFFER_SIZE at this ⊢
      omega
    · have := compressGo_len_le (toSamples input).length (toSamples input) 0
        (by unfold COMPRESSION_BUFFER_SIZE; omega)
      unfold COMPRESSION_BUFFER_SIZE at this ⊢
      omega

/-- Witness for the amended C3 bound at a concrete input. -/
theorem C3_amended_witness :
    (compressAudio (bytesOfSamples [1000])).len ≤ COMPRESSION_BUFFER_SIZE :=
  (C3_amended_buffer_bounds (bytesOfSamples [1000])).2

/-- Claim C5.  A non-empty sample buffer in which no position carries a run
of MIN_SILENCE_SAMPLES consecutive silent samples (so `isSilence` rejects
every suffix), and whose raw byte size fits under the output capacity guard,
compresses to exactly 2 bytes per sample: the raw byte size. -/
theorem C5_no_silence_identity (samples : List Int) (hne : samples ≠ [])
    (hsil : ∀ i < samples.length, isSilence (samples.drop i) = false)
    (hcap : 2 * samples.length ≤ COMPRESSION_BUFFER_SIZE - 4) :
    (compressSamples samples).len = 2 * samples.length := by
  have hsil' : ∀ i, isSilence (samples.drop i) = false := by
    intro i
    by_cases hi : i < samples.length
    · exact hsil i hi
    · rw [List.drop_of_length_le (by omega)]
      decide
  have := compressGo_no_silence samples.length samples 0 (Nat.le_refl _) hsil' (by omega)
  unfold compressSamples
  omega

/-- Witness for C5 at a concrete silence-free buffer. -/
theorem C5_witness :
    (compressSamples [1000, -1000, 500]).len = 2 * ([1000, -1000, 500] : List Int).length :=
  C5_no_silence_identity [1000, -1000, 500] (by decide) (by decide) (by decide)

/-- Claim C6.  A buffer that is one silence run of length L with
MIN_SILENCE_SAMPLES ≤ L ≤ MAX_SILENCE_RUN compresses to exactly the 3 bytes
SILENCE_MARKER, L mod 256, L div 256 (the run length as a little-endian
16-bit integer), written at indices 0, 1, 2, with one silence region
counted. -/
theorem C6_single_silence_run (samples : List Int)
    (hall : ∀ s ∈ samples, silentSample s = true)
    (hmin : MIN_SILENCE_SAMPLES ≤ samples.length)
    (hmax : samples.length ≤ MAX_SILENCE_RUN) :
    compressSamples samples =
      ⟨[(0, SILENCE_MARKER), (0 + 1, samples.length % 256),
        (0 + 2, samples.length / 256 % 256)], 3, 1⟩ := by
  have hs := isSilence_all_silent samples hall hmin
  have hc := countSilence_all_silent samples hall hmax
  cases samples with
  | nil => exact absurd hmin (by decide)
  | cons s t =>
    unfold compressSamples
    rw [List.length_cons,
      compressGo_silence_step (t.length + 1) s t 0 (by omega) (by decide) hs, hc,
      show (s :: t).drop (s :: t).length = [] from List.drop_length _,
      Nat.add_sub_cancel, compressGo_nil]
    simp

/-- Witness for C6 at a concrete 8-sample silence run. -/
theorem C6_witness :
    compressSamples (List.replicate 8 0) =
      ⟨[(0, SILENCE_MARKER), (0 + 1, (List.replicate 8 (0 : Int)).length % 256),
        (0 + 2, (List.replicate 8 (0 : Int)).length / 256 % 256)], 3, 1⟩ :=
  C6_single_silence_run (List.replicate 8 0) (by decide) (by decide) (by decide)

/-- Claim C9.  The compress loop terminates on every finite input: a
silence-classified position always advances the cursor by at least 1 (in
fact by at least MIN_SILENCE_SAMPLES) and a raw position by exactly 1, so
fuel equal to the sample count already computes the loop's result — any
extra fuel changes nothing. -/
theorem C9_loop_termination (samples : List Int) (k : Nat) :
    (∀ s : List Int, isSilence s = true →
      1 ≤ countSilence s ∧ MIN_SILENCE_SAMPLES ≤ countSilence s) ∧
    compressGo (samples.length + k) samples 0 = compressSamples samples := by
  constructor
  · intro s hs
    have h8 := countSilence_ge_min s hs
    exact ⟨Nat.le_trans (by decide) h8, h8⟩
  · exact compressGo_fuel_stable samples.length k samples 0 (Nat.le_refl _)

/-- Witness for C9's advancement property at a concrete silent run. -/
theorem C9_witness :
    1 ≤ countSilence (List.replicate 8 0) ∧
      MIN_SILENCE_SAMPLES ≤ countSilence (List.replicate 8 0) :=
  (C9_loop_termination [] 0).1 (List.replicate 8 0) (by decide)

/-- Claim C10.  Any input of at least 2 bytes (one full sample) compresses to
a length of at least 2, so the compressed size that
`encodeAudioBase64` divides by on this path is nonzero. -/
theorem C10_compressed_len_positive (input : List Nat) (h : 2 ≤ input.length) :
    2 ≤ (compressAudio input).len := by
  unfold compressAudio
  rw [if_neg (by omega)]
  obtain ⟨b0, t0, rfl⟩ : ∃ b0 t0, input = b0 :: t0 := by
    cases input with
    | nil => simp at h
    | cons a t => exact ⟨a, t, rfl⟩
  obtain ⟨b1, t1, rfl⟩ : ∃ b1 t1, t0 = b1 :: t1 := by
    cases t0 with
    | nil => simp at h
    | cons a t => exact ⟨a, t, rfl⟩
  unfold compressSamples
  simp only [toSamples, List.length_cons]
  exact compressGo_len_ge_two (toSamples t1).length (int16OfBytes b0 b1) (toSamples t1)

/-- Witness for C10 at a concrete 2-byte input. -/
theorem C10_witness : 2 ≤ (compressAudio [10, 0]).len :=
  C10_compressed_len_positive [10, 0] (by decide)

/-- Claim C1.  In a build without the DEVELOPMENT compile flag
(`developmentFlag = false`), setupSecureConnection never calls setInsecure
and always installs the pinned root CA, regardless of the value of the
`development_mode` argument: the trust-all branch is compiled out and the
dev-mode request falls back to `setCACert(root_ca)`. -/
theorem C1_production_never_trust_all (development_mode : Bool) :
    TLSAction.setInsecure ∉ (setupSecureConnection false development_mode).1 ∧
    TLSAction.setCACert ∈ (setupSecureConnection false development_mode).1 := by
  cases development_mode <;> exact ⟨by decide, by decide⟩

/-- Witness for C1 with development mode requested by the caller. -/
theorem C1_witness :
    TLSAction.setInsecure ∉ (setupSecureConnection false true).1 :=
  (C1_production_never_trust_all true).1

/-- Claim C2.  Once the manager is configured, verifyConnection leaves the
transport unconnected when it returns, on both outcomes: a successful
connect to host:443 is followed by `stop()`, and a failed connect
establishes no connection; the returned boolean is exactly the handshake
outcome. -/
theorem C2_verify_closes_connection (client_configured connectOk c0 : Bool)
    (host : String) (h : client_configured = true) :
    runNet connectOk c0 (verifyConnection client_configured connectOk host).1 = false ∧
    (verifyConnection client_configured connectOk host).2 = connectOk := by
  subst h
  cases connectOk <;> exact ⟨rfl, rfl⟩

/-- Witness for C2 at a successful handshake. -/
theorem C2_witness :
    runNet true false (verifyConnection true true "api.example.com").1 = false :=
  (C2_verify_closes_connection true true false "api.example.com" rfl).1

/-- Claim C4 (code bug).  When the compression buffer failed to allocate,
encodeAudioBase64 does return an empty string (base64 of the 0 bytes the
null-output `compressAudio` guard reports), but it is NOT a no-op on the
statistics: the update block of lines 92-96 still runs, so
`total_processed` grows by the raw byte count (32 for the 16-sample
selfTest buffer, against 0 before the call) — and the source further divides
`byte_count` by the zero `compressed_size` in the ratio update. -/
theorem C4_null_buffer_still_mutates_stats :
    (encodeAudioBase64 false exSamplesC4 initStats 1).1 = 0 ∧
    (encodeAudioBase64 false exSamplesC4 initStats 1).2.total_processed = 32 ∧
    initStats.total_processed = 0 := by
  exact ⟨by decide, by decide, rfl⟩

/-- Claim C7.  The running average compression ratio starts at 1 after
construction and after resetStats, and each encode call updates it by
`avg = (avg + last_ratio) / 2`; hence after two calls whose per-call ratios
are r1 = raw1/compressed1 and r2 = raw2/compressed2, the average is
(((1 + r1) / 2) + r2) / 2 — and it differs from the arithmetic mean
(r1 + r2) / 2, as the final concrete conjunct shows (first call 16 silent
samples, ratio 32/3; second call one loud sample, ratio 1). -/
theorem C7_running_average_rule (st : CompressionStats) (s1 s2 : List Int)
    (t1 t2 : Nat) (h1 : s1 ≠ []) (h2 : s2 ≠ []) :
    initStats.avgRatioQ = 1 ∧ (resetStats st).avgRatioQ = 1 ∧
    (encodeAudioBase64 true s2 (encodeAudioBase64 true s1 initStats t1).2 t2).2.avgRatioQ =
      ((1 + ((s1.length * 2 : Nat) : Rat) / ((compressAudio (bytesOfSamples s1)).len : Rat)) / 2
        + ((s2.length * 2 : Nat) : Rat) / ((compressAudio (bytesOfSamples s2)).len : Rat)) / 2 ∧
    (encodeAudioBase64 true [1000]
        (encodeAudioBase64 true (List.replicate 16 0) initStats 0).2 0).2.avgRatioQ ≠
      ((32 : Rat) / 3 + 1) / 2 := by
  have e1 : ¬ s1.length = 0 := fun hh => h1 (List.length_eq_zero.mp hh)
  have e2 : ¬ s2.length = 0 := fun hh => h2 (List.length_eq_zero.mp hh)
  refine ⟨rfl, rfl, ?_, ?_⟩
  · simp only [encodeAudioBase64, if_neg e1, if_neg e2, if_pos, initStats]
  · have h16 : compressAudio (bytesOfSamples (List.replicate 16 0)) =
        ⟨[(0, 255), (1, 16), (2, 0)], 3, 1⟩ := by decide
    have h1k : compressAudio (bytesOfSamples [1000]) =
        ⟨[(0, byteLo 1000), (0 + 1, byteHi 1000)], 2, 0⟩ := by decide
    norm_num [encodeAudioBase64, h16, h1k, initStats]

/-- Witness for C7 at two concrete one-sample buffers. -/
theorem C7_witness : initStats.avgRatioQ = 1 :=
  (C7_running_average_rule initStats [1000] [1000] 0 0 (by decide) (by decide)).1

/-- Claim C8, counterexample.  When development mode is requested but the
DEVELOPMENT flag is absent, setupSecureConnection installs the pinned CA but
does NOT set the 30-second timeout: the `setTimeout(30000)` call sits only
in the `development_mode == false` branch (line 224), so the claim that
every non-trust-all call also gets the bounded timeout fails here. -/
theorem C8_counterexample :
    TLSAction.setCACert ∈ (setupSecureConnection false true).1 ∧
    TLSAction.setTimeout 30000 ∉ (setupSecureConnection false true).1 :=
  ⟨by decide, by decide⟩

/-- Claim C8, amended.  Every call that does not take the trust-all branch
installs the pinned root CA; the 30-second timeout is additionally set
exactly when `development_mode` is false (production mode), and is NOT set
on the dev-requested-without-flag fallback path. -/
theorem C8_amended_timeout_production_only (developmentFlag development_mode : Bool)
    (h : ¬ (development_mode = true ∧ developmentFlag = true)) :
    TLSAction.setCACert ∈ (setupSecureConnection developmentFlag development_mode).1 ∧
    (development_mode = false →
      TLSAction.setTimeout 30000 ∈ (setupSecureConnection developmentFlag development_mode).1) ∧
    (development_mode = true →
      TLSAction.setTimeout 30000 ∉ (setupSecureConnection developmentFlag development_mode).1)
    := by
  cases development_mode with
  | false => cases developmentFlag <;> exact ⟨by decide, by decide, by decide⟩
  | true =>
    cases developmentFlag with
    | false => exact ⟨by decide, by decide, by decide⟩
    | true => exact absurd ⟨rfl, rfl⟩ h

/-- Witness for the amended C8 on the fallback path. -/
theorem C8_amended_witness :
    TLSAction.setCACert ∈ (setupSecureConnection false true).1 :=
  (C8_amended_timeout_production_only false true (by simp)).1
